import Mathlib

/-!
Verification of the `ssh-keys` command-line program (`src/main.rs`).

The program synchronizes a directory of ssh-key files with a single AWS
Secrets Manager secret.  Its two operations are

* `get`  : validate that the output directory is empty (or absent, creating
           it), fetch the secret, decode the JSON payload into a
           `HashMap<String, String>` and materialize one file per entry with
           a filename-driven permission mode; and
* `put`  : scan the input directory into a `HashMap<String, String>`
           (skipping non-regular entries, failing on non-UTF-8 names or
           contents), ask for interactive confirmation, serialize the map
           with `serde_json::to_string_pretty` and upload it.

This file gives a shallow embedding of those operations and proves the
specification's claims about them.

Modelling decisions:

* Rust's `HashMap<String, String>` (the `Files` alias of the source) is
  embedded as the list of its entries in iteration order.  Rust's `HashMap`
  iteration order depends on a per-process random hash seed, so two maps
  with equal contents may present their entries in any order; consequently
  "same bundle" is list permutation, not list equality.
* The JSON codec is the behaviour of `serde_json::to_string_pretty` /
  `serde_json::from_str::<HashMap<String, String>>` on string maps:
  a pretty printer with two-space indentation and the standard JSON string
  escaping, and a parser accepting exactly a JSON object whose values are
  strings (any other well-formed JSON value is a type error for the target
  type).  One simplification: a `\uXXXX` escape encoding a high surrogate
  must be followed by a low surrogate, which serde_json combines into one
  code point; the model implements this combination as well, and rejects
  lone surrogates exactly as serde_json does.
* Filesystem and process effects are embedded by explicit state passing:
  the relevant observations (directory existence/emptiness, directory
  entries and their UTF-8 validity, operator input lines, the remote
  response) are inputs, and the produced effects (remote calls, created
  files with path/mode/content, exit behaviour) are outputs.
-/

namespace SshKeys

/-- Rust `type Files = HashMap<String, String>` (`main.rs:27`), embedded as
the map's entry sequence in iteration order. -/
abbrev Files := List (String × String)

/-! ### Characters used by the JSON wire format -/

/-- The double-quote character. -/
def dq : Char := Char.ofNat 34

/-- The backslash character. -/
def bsl : Char := Char.ofNat 92

/-- The opening curly bracket. -/
def lbr : Char := Char.ofNat 123

/-- The closing curly bracket. -/
def rbr : Char := Char.ofNat 125

/-- The newline character. -/
def nlc : Char := Char.ofNat 10

/-- The space character. -/
def spc : Char := Char.ofNat 32

/-- JSON insignificant whitespace: space, tab, line feed, carriage return. -/
def isWs (c : Char) : Bool :=
  c.toNat == 32 || c.toNat == 9 || c.toNat == 10 || c.toNat == 13

/-- Lower-case hexadecimal digit for `n < 16`, as emitted by serde_json's
`\u00XX` escapes. -/
def hexDigitChar (n : Nat) : Char :=
  if n < 10 then Char.ofNat (48 + n) else Char.ofNat (87 + n)

/-- serde_json's escaping of one character inside a JSON string literal:
quote and backslash get a backslash escape, the five control characters with
short escapes get those, every other control character below 0x20 gets a
`\u00XX` escape, and everything else is emitted verbatim. -/
def escapeChar (c : Char) : List Char :=
  if c = dq then [bsl, dq]
  else if c = bsl then [bsl, bsl]
  else if c.toNat < 32 then
    if c.toNat = 8 then [bsl, 'b']
    else if c.toNat = 9 then [bsl, 't']
    else if c.toNat = 10 then [bsl, 'n']
    else if c.toNat = 12 then [bsl, 'f']
    else if c.toNat = 13 then [bsl, 'r']
    else [bsl, 'u', '0', '0', hexDigitChar (c.toNat / 16), hexDigitChar (c.toNat % 16)]
  else [c]

/-- Escape a whole string body. -/
def escapeString (s : List Char) : List Char :=
  (s.map escapeChar).flatten

/-- A JSON string literal: `"` body `"`. -/
def quoteStr (s : String) : List Char :=
  dq :: (escapeString s.data ++ [dq])

/-- One pretty-printed object member: two spaces of indentation, the quoted
key, a colon and a space, and the quoted value. -/
def memberLine (p : String × String) : List Char :=
  spc :: spc :: (quoteStr p.1 ++ ':' :: spc :: quoteStr p.2)

/-- The pretty-printed members of a non-empty object, separated by a comma
and a newline. -/
def membersText : Files → List Char
  | [] => []
  | [p] => memberLine p
  | p :: q :: rest => memberLine p ++ ',' :: nlc :: membersText (q :: rest)

/-- `serde_json::to_string_pretty` on a string map (`main.rs:195`):
`\x7b\x7d` for the empty map, otherwise the members each on their own
indented line. -/
def encodeList : Files → List Char
  | [] => [lbr, rbr]
  | p :: rest => lbr :: nlc :: (membersText (p :: rest) ++ [nlc, rbr])

/-- The text payload sent to the secret store: the serialized bundle. -/
def encode (m : Files) : String :=
  ⟨encodeList m⟩

/-! ### The JSON parser (`serde_json::from_str::<Files>`, `main.rs:113`) -/

/-- Numeric value of a hexadecimal digit character. -/
def hexVal (c : Char) : Option Nat :=
  if 48 ≤ c.toNat ∧ c.toNat ≤ 57 then some (c.toNat - 48)
  else if 97 ≤ c.toNat ∧ c.toNat ≤ 102 then some (c.toNat - 87)
  else if 65 ≤ c.toNat ∧ c.toNat ≤ 70 then some (c.toNat - 55)
  else none

/-- Value of a four-digit hexadecimal escape. -/
def hex4 (a b c d : Char) : Option Nat :=
  match hexVal a, hexVal b, hexVal c, hexVal d with
  | some x, some y, some z, some w => some (x * 4096 + y * 256 + z * 16 + w)
  | _, _, _, _ => none

/-- Prepend a decoded character to the string being parsed. -/
def consOpt (c : Char) (r : Option (List Char × List Char)) :
    Option (List Char × List Char) :=
  r.map fun p => (c :: p.1, p.2)

/-- The single-character escapes of the JSON grammar: `\"`, `\\`, `\/`,
`\b`, `\f`, `\n`, `\r`, `\t`. -/
def unescapeShort (e : Char) : Option Char :=
  if e = dq then some dq
  else if e = bsl then some bsl
  else if e = '/' then some '/'
  else if e = 'b' then some (Char.ofNat 8)
  else if e = 'f' then some (Char.ofNat 12)
  else if e = 'n' then some (Char.ofNat 10)
  else if e = 'r' then some (Char.ofNat 13)
  else if e = 't' then some (Char.ofNat 9)
  else none

/-- Parse the four hex digits following a `\u` escape, combining a high
surrogate with the immediately following `\uXXXX` low surrogate into one
code point and rejecting lone surrogates, as serde_json does. -/
def parseUnicodeEscape : List Char → Option (Char × List Char)
  | a :: b :: c :: d :: rest =>
    match hex4 a b c d with
    | none => none
    | some n =>
      if n < 0xD800 ∨ 0xDFFF < n then some (Char.ofNat n, rest)
      else if n ≤ 0xDBFF then
        match rest with
        | e2 :: u2 :: a2 :: b2 :: c2 :: d2 :: rest2 =>
          if e2 = bsl ∧ u2 = 'u' then
            match hex4 a2 b2 c2 d2 with
            | none => none
            | some m =>
              if 0xDC00 ≤ m ∧ m ≤ 0xDFFF then
                some (Char.ofNat (0x10000 + (n - 0xD800) * 0x400 + (m - 0xDC00)), rest2)
              else none
          else none
        | _ => none
      else none
  | _ => none

/-- A successful unicode escape consumes at least its four hex digits. -/
theorem parseUnicodeEscape_length (l : List Char) (ch : Char) (r : List Char)
    (h : parseUnicodeEscape l = some (ch, r)) : r.length + 4 ≤ l.length := by
  unfold parseUnicodeEscape at h
  repeat' split at h
  all_goals simp_all

/-- Parse the body of a JSON string literal (the opening quote already
consumed), returning the decoded characters and the unconsumed input.
Escape sequences follow the JSON grammar as serde_json implements it: the
short escapes, `\uXXXX` with surrogate-pair combination, lone surrogates
rejected; raw control characters below 0x20 are rejected. -/
def parseStringBody : List Char → Option (List Char × List Char)
  | [] => none
  | c :: rest =>
    if c = dq then some ([], rest)
    else if c = bsl then
      match rest with
      | [] => none
      | e :: rest1 =>
        if e = 'u' then
          match h : parseUnicodeEscape rest1 with
          | none => none
          | some (ch, rest2) => consOpt ch (parseStringBody rest2)
        else
          match unescapeShort e with
          | none => none
          | some ch => consOpt ch (parseStringBody rest1)
    else if c.toNat < 32 then none
    else consOpt c (parseStringBody rest)
  termination_by l => l.length
  decreasing_by
  all_goals first
    | (have hq := parseUnicodeEscape_length _ _ _ h
       simp only [List.length_cons]
       omega)
    | (simp only [List.length_cons]
       omega)

/-- Drop leading JSON whitespace. -/
def skipWs : List Char → List Char
  | [] => []
  | c :: rest => if isWs c then skipWs rest else c :: rest

/-- Consume one expected character. -/
def expectChar (c : Char) : List Char → Option (List Char)
  | [] => none
  | d :: rest => if d = c then some rest else none

/-- Parse one object member `"key" : "value"`, allowing surrounding
whitespace, returning the pair and the unconsumed input. -/
def parseOneMember (l : List Char) : Option ((String × String) × List Char) :=
  match expectChar dq (skipWs l) with
  | none => none
  | some r0 =>
    match parseStringBody r0 with
    | none => none
    | some (k, r1) =>
      match expectChar ':' (skipWs r1) with
      | none => none
      | some r2 =>
        match expectChar dq (skipWs r2) with
        | none => none
        | some r3 =>
          match parseStringBody r3 with
          | none => none
          | some (v, r4) => some ((⟨k⟩, ⟨v⟩), r4)


/-- `skipWs` never lengthens its input. -/
theorem skipWs_length (l : List Char) : (skipWs l).length ≤ l.length := by
  induction l with
  | nil => simp [skipWs]
  | cons c rest ih =>
    simp only [skipWs]
    split
    · exact Nat.le_trans ih (Nat.le_succ _)
    · exact Nat.le_refl _


/-- Parsing a string body consumes at least the closing quote. -/
theorem parseStringBody_len :
    ∀ n l, l.length ≤ n → ∀ s r, parseStringBody l = some (s, r) → r.length < l.length := by
  intro n
  induction n with
  | zero =>
    intro l hl s r h
    have hnil : l = [] := List.length_eq_zero.mp (Nat.le_zero.mp hl)
    subst hnil
    rw [parseStringBody.eq_def] at h
    exact absurd h (by simp)
  | succ n ih =>
    intro l hl s r h
    cases l with
    | nil =>
      rw [parseStringBody.eq_def] at h
      exact absurd h (by simp)
    | cons c rest =>
      rw [parseStringBody.eq_def] at h
      simp only [List.length_cons] at hl ⊢
      repeat' split at h
      all_goals try simp_all [consOpt, Option.map_eq_some']
      all_goals obtain ⟨a, hp, hs⟩ := h
      all_goals try (rename parseUnicodeEscape _ = some _ => hpe
                     have hpl := parseUnicodeEscape_length _ _ _ hpe)
      all_goals have hrec := ih _ (by omega) _ _ hp
      all_goals omega

/-- `expectChar` consumes exactly one character. -/
theorem expectChar_length (c : Char) (l r : List Char) (h : expectChar c l = some r) :
    r.length < l.length := by
  cases l with
  | nil => exact absurd h (by simp [expectChar])
  | cons d rest =>
    simp only [expectChar] at h
    split at h
    · simp_all
    · exact absurd h (by simp)

/-- Parsing one member strictly consumes input. -/
theorem parseOneMember_length (l : List Char) (p : String × String) (r : List Char)
    (h : parseOneMember l = some (p, r)) : r.length < l.length := by
  unfold parseOneMember at h
  repeat' split at h
  all_goals try exact Option.noConfusion h
  rename_i x0 r0 h0 x1 k r1 h1 x2 r2 h2 x3 r3 h3 x4 v r4 h4
  simp only [Option.some.injEq, Prod.mk.injEq] at h
  have l0 := skipWs_length l
  have l1 := expectChar_length _ _ _ h0
  have l2 := parseStringBody_len _ r0 (Nat.le_refl _) _ _ h1
  have l3 := skipWs_length r1
  have l4 := expectChar_length _ _ _ h2
  have l5 := skipWs_length r2
  have l6 := expectChar_length _ _ _ h3
  have l7 := parseStringBody_len _ r3 (Nat.le_refl _) _ _ h4
  have hr : r4.length = r.length := congrArg List.length h.2
  omega

/-- `HashMap::insert`: replace the value in place if the key is present,
otherwise append the new entry. -/
def insertPair (m : Files) (k v : String) : Files :=
  if m.any (fun q => q.1 == k) then
    m.map (fun q => if q.1 == k then (k, v) else q)
  else m ++ [(k, v)]

/-- Parse the members of a non-empty JSON object (the opening bracket
already consumed), inserting each `key: value` pair into the map being
deserialized, until the closing bracket. -/
def parseMembersLoop (l : List Char) (acc : Files) : Option (Files × List Char) :=
  match hm : parseOneMember l with
  | none => none
  | some (p, r) =>
    match hs : skipWs r with
    | [] => none
    | c :: r2 =>
      if c = ',' then parseMembersLoop r2 (insertPair acc p.1 p.2)
      else if c = rbr then some (insertPair acc p.1 p.2, r2)
      else none
  termination_by l.length
  decreasing_by
    have h1 := parseOneMember_length _ _ _ hm
    have h2 := skipWs_length r
    have h3 : (skipWs r).length = r2.length + 1 := by rw [hs]; rfl
    omega

/-- `serde_json::from_str::<Files>` (`main.rs:113`): accept exactly a JSON
object whose values are strings, with nothing but whitespace around it;
any other payload is a decode error (`none`). -/
def decode (s : String) : Option Files :=
  match skipWs s.data with
  | [] => none
  | c :: r =>
    if c = lbr then
      match skipWs r with
      | [] => none
      | c2 :: r2 =>
        if c2 = rbr then if (skipWs r2).isEmpty then some [] else none
        else
          match parseMembersLoop r [] with
          | none => none
          | some (m, rest) => if (skipWs rest).isEmpty then some m else none
    else none

/-! ### Round trip of the string codec -/

/-- `hexVal` inverts `hexDigitChar` on digit values. -/
theorem hexVal_hexDigitChar : ∀ k < 16, hexVal (hexDigitChar k) = some k := by decide

/-- A quote ends an unescaped string body. -/
theorem psb_dq (l : List Char) : parseStringBody (dq :: l) = some ([], l) := by
  rw [parseStringBody.eq_def]
  simp

/-- An ordinary character is consumed verbatim. -/
theorem psb_ordinary (c : Char) (l : List Char) (h1 : c ≠ dq) (h2 : c ≠ bsl)
    (h3 : ¬c.toNat < 32) : parseStringBody (c :: l) = consOpt c (parseStringBody l) := by
  rw [parseStringBody.eq_def]
  simp [h1, h2, h3]

/-- A short escape is decoded by `unescapeShort`. -/
theorem psb_short (e ch : Char) (l : List Char) (hu : e ≠ 'u')
    (h : unescapeShort e = some ch) :
    parseStringBody (bsl :: e :: l) = consOpt ch (parseStringBody l) := by
  rw [parseStringBody.eq_def]
  simp [hu, h, show bsl ≠ dq by decide]

/-- A unicode escape is decoded by `parseUnicodeEscape`. -/
theorem psb_unicode (ch : Char) (l r : List Char) (h : parseUnicodeEscape l = some (ch, r)) :
    parseStringBody (bsl :: 'u' :: l) = consOpt ch (parseStringBody r) := by
  rw [parseStringBody.eq_def]
  simp [show bsl ≠ dq by decide]
  split <;> simp_all

/-- Parsing undoes escaping, one character at a time. -/
theorem psb_escapeChar (c : Char) (l : List Char) :
    parseStringBody (escapeChar c ++ l) = consOpt c (parseStringBody l) := by
  by_cases h1 : c = dq
  · subst h1
    rw [show escapeChar dq = [bsl, dq] by rfl]
    simp only [List.cons_append, List.nil_append]
    rw [psb_short dq dq l (by decide) (by decide)]
  · by_cases h2 : c = bsl
    · subst h2
      rw [show escapeChar bsl = [bsl, bsl] by decide]
      simp only [List.cons_append, List.nil_append]
      rw [psb_short bsl bsl l (by decide) (by decide)]
    · by_cases h3 : c.toNat < 32
      · have hlow : ¬(c = dq ∨ c = bsl) := by simp [h1, h2]
        by_cases h8 : c.toNat = 8
        · have hc : escapeChar c = [bsl, 'b'] := by simp [escapeChar, h1, h2, h3, h8]
          rw [hc]
          simp only [List.cons_append, List.nil_append]
          rw [psb_short 'b' (Char.ofNat 8) l (by decide) (by decide)]
          rw [show Char.ofNat 8 = Char.ofNat c.toNat by rw [h8], Char.ofNat_toNat]
        · by_cases h9 : c.toNat = 9
          · have hc : escapeChar c = [bsl, 't'] := by simp [escapeChar, h1, h2, h3, h8, h9]
            rw [hc]
            simp only [List.cons_append, List.nil_append]
            rw [psb_short 't' (Char.ofNat 9) l (by decide) (by decide)]
            rw [show Char.ofNat 9 = Char.ofNat c.toNat by rw [h9], Char.ofNat_toNat]
          · by_cases h10 : c.toNat = 10
            · have hc : escapeChar c = [bsl, 'n'] := by simp [escapeChar, h1, h2, h3, h8, h9, h10]
              rw [hc]
              simp only [List.cons_append, List.nil_append]
              rw [psb_short 'n' (Char.ofNat 10) l (by decide) (by decide)]
              rw [show Char.ofNat 10 = Char.ofNat c.toNat by rw [h10], Char.ofNat_toNat]
            · by_cases h12 : c.toNat = 12
              · have hc : escapeChar c = [bsl, 'f'] := by
                  simp [escapeChar, h1, h2, h3, h8, h9, h10, h12]
                rw [hc]
                simp only [List.cons_append, List.nil_append]
                rw [psb_short 'f' (Char.ofNat 12) l (by decide) (by decide)]
                rw [show Char.ofNat 12 = Char.ofNat c.toNat by rw [h12], Char.ofNat_toNat]
              · by_cases h13 : c.toNat = 13
                · have hc : escapeChar c = [bsl, 'r'] := by
                    simp [escapeChar, h1, h2, h3, h8, h9, h10, h12, h13]
                  rw [hc]
                  simp only [List.cons_append, List.nil_append]
                  rw [psb_short 'r' (Char.ofNat 13) l (by decide) (by decide)]
                  rw [show Char.ofNat 13 = Char.ofNat c.toNat by rw [h13], Char.ofNat_toNat]
                · have hc : escapeChar c =
                      [bsl, 'u', '0', '0', hexDigitChar (c.toNat / 16), hexDigitChar (c.toNat % 16)] := by
                    simp [escapeChar, h1, h2, h3, h8, h9, h10, h12, h13]
                  have hdiv : c.toNat / 16 < 16 := by omega
                  have hmod : c.toNat % 16 < 16 := by omega
                  have h0 : hexVal '0' = some 0 := by decide
                  have hh : hex4 '0' '0' (hexDigitChar (c.toNat / 16)) (hexDigitChar (c.toNat % 16))
                      = some (c.toNat / 16 * 16 + c.toNat % 16) := by
                    unfold hex4
                    simp only [hexVal_hexDigitChar _ hdiv, hexVal_hexDigitChar _ hmod, h0]
                    norm_num
                  have hpue : parseUnicodeEscape
                      ('0' :: '0' :: hexDigitChar (c.toNat / 16) :: hexDigitChar (c.toNat % 16) :: l)
                      = some (c, l) := by
                    simp only [parseUnicodeEscape, hh]
                    rw [if_pos (Or.inl (by omega : c.toNat / 16 * 16 + c.toNat % 16 < 55296))]
                    rw [show c.toNat / 16 * 16 + c.toNat % 16 = c.toNat by omega, Char.ofNat_toNat]
                  rw [hc]
                  simp only [List.cons_append, List.nil_append]
                  show parseStringBody (bsl :: 'u' :: ('0' :: '0' ::
                    hexDigitChar (c.toNat / 16) :: hexDigitChar (c.toNat % 16) :: l)) = _
                  rw [psb_unicode c _ l hpue]
      · rw [show escapeChar c ++ l = c :: l by simp [escapeChar, h1, h2, h3]]
        exact psb_ordinary c l h1 h2 h3

/-- Parsing undoes escaping on a whole string body, consuming the closing
quote. -/
theorem psb_escapeString (s : List Char) (tail : List Char) :
    parseStringBody (escapeString s ++ dq :: tail) = some (s, tail) := by
  induction s with
  | nil =>
    show parseStringBody (dq :: tail) = some ([], tail)
    exact psb_dq tail
  | cons c cs ih =>
    show parseStringBody ((escapeChar c ++ escapeString cs) ++ dq :: tail) = _
    rw [List.append_assoc, psb_escapeChar, ih]
    rfl

/-- Whitespace at the head is skipped. -/
theorem skipWs_ws (c : Char) (l : List Char) (h : isWs c = true) :
    skipWs (c :: l) = skipWs l := by
  simp [skipWs, h]

/-- A non-whitespace head stops the skipping. -/
theorem skipWs_not (c : Char) (l : List Char) (h : isWs c = false) :
    skipWs (c :: l) = c :: l := by
  simp [skipWs, h]

/-- `expectChar` succeeds on the expected head. -/
theorem expectChar_cons (c : Char) (l : List Char) : expectChar c (c :: l) = some l := by
  simp [expectChar]

/-- `parseOneMember` only sees its input through `skipWs`. -/
theorem parseOneMember_congr (l1 l2 : List Char) (h : skipWs l1 = skipWs l2) :
    parseOneMember l1 = parseOneMember l2 := by
  unfold parseOneMember
  rw [h]

/-- Parsing one member undoes `memberLine`. -/
theorem parseOneMember_memberLine (p : String × String) (tail : List Char) :
    parseOneMember (memberLine p ++ tail) = some (p, tail) := by
  obtain ⟨k, v⟩ := p
  show parseOneMember (spc :: spc :: ((quoteStr k ++ ':' :: spc :: quoteStr v) ++ tail)) = _
  unfold parseOneMember
  have e1 : (quoteStr k ++ ':' :: spc :: quoteStr v) ++ tail
      = dq :: (escapeString k.data ++ dq :: (':' :: spc :: (quoteStr v ++ tail))) := by
    simp [quoteStr]
  have e2 : quoteStr v ++ tail = dq :: (escapeString v.data ++ dq :: tail) := by
    simp [quoteStr]
  simp only [skipWs_ws spc _ (by decide), e1, e2, skipWs_not dq _ (by decide),
    skipWs_not ':' _ (by decide), expectChar_cons, psb_escapeString]


/-- The member loop undoes `membersText`, folding the parsed members into
the accumulator. -/
theorem parseMembersLoop_members :
    ∀ (pairs : Files), pairs ≠ [] → ∀ (acc : Files) (tail : List Char),
    parseMembersLoop (nlc :: (membersText pairs ++ nlc :: rbr :: tail)) acc
      = some (pairs.foldl (fun m p => insertPair m p.1 p.2) acc, tail) := by
  intro pairs
  induction pairs with
  | nil => intro h; exact absurd rfl h
  | cons p rest ih =>
    intro _ acc tail
    cases rest with
    | nil =>
      have hm : parseOneMember (nlc :: (membersText [p] ++ nlc :: rbr :: tail))
          = some (p, nlc :: rbr :: tail) := by
        rw [parseOneMember_congr _ (memberLine p ++ nlc :: rbr :: tail)
          (by rw [show membersText [p] = memberLine p from rfl]
              exact skipWs_ws nlc _ (by decide))]
        exact parseOneMember_memberLine p _
      have hsw : skipWs (nlc :: rbr :: tail) = rbr :: tail := by
        rw [skipWs_ws nlc _ (by decide), skipWs_not rbr _ (by decide)]
      rw [parseMembersLoop.eq_def]
      split
      · rename_i heq
        rw [hm] at heq
        exact Option.noConfusion heq
      · rename_i p2 r heq
        rw [hm] at heq
        injection heq with h3
        rw [Prod.mk.injEq] at h3
        obtain ⟨h4, h5⟩ := h3
        subst h4
        subst h5
        split
        · rename_i heq2
          rw [hsw] at heq2
          exact List.noConfusion heq2
        · rename_i c r2 heq2
          rw [hsw] at heq2
          injection heq2 with h6 h7
          subst h6
          subst h7
          rw [if_neg (by decide), if_pos rfl]
          simp
    | cons q rest2 =>
      have hassoc : membersText (p :: q :: rest2) ++ nlc :: rbr :: tail
          = memberLine p ++ (',' :: nlc :: (membersText (q :: rest2) ++ nlc :: rbr :: tail)) := by
        rw [show membersText (p :: q :: rest2)
            = memberLine p ++ ',' :: nlc :: membersText (q :: rest2) from rfl]
        simp
      have hm : parseOneMember (nlc :: (membersText (p :: q :: rest2) ++ nlc :: rbr :: tail))
          = some (p, ',' :: nlc :: (membersText (q :: rest2) ++ nlc :: rbr :: tail)) := by
        rw [parseOneMember_congr _
          (memberLine p ++ (',' :: nlc :: (membersText (q :: rest2) ++ nlc :: rbr :: tail)))
          (by rw [hassoc]; exact skipWs_ws nlc _ (by decide))]
        exact parseOneMember_memberLine p _
      have hsw : skipWs (',' :: nlc :: (membersText (q :: rest2) ++ nlc :: rbr :: tail))
          = ',' :: nlc :: (membersText (q :: rest2) ++ nlc :: rbr :: tail) :=
        skipWs_not ',' _ (by decide)
      rw [parseMembersLoop.eq_def]
      split
      · rename_i heq
        rw [hm] at heq
        exact Option.noConfusion heq
      · rename_i p2 r heq
        rw [hm] at heq
        injection heq with h3
        rw [Prod.mk.injEq] at h3
        obtain ⟨h4, h5⟩ := h3
        subst h4
        subst h5
        split
        · rename_i heq2
          rw [hsw] at heq2
          exact List.noConfusion heq2
        · rename_i c r2 heq2
          rw [hsw] at heq2
          injection heq2 with h6 h7
          subst h6
          subst h7
          rw [if_pos rfl]
          rw [ih (by simp)]
          simp

/-- Inserting a fresh key appends the entry. -/
theorem insertPair_fresh (m : Files) (k v : String) (h : ∀ q ∈ m, q.1 ≠ k) :
    insertPair m k v = m ++ [(k, v)] := by
  have hc : ¬(m.any (fun q => q.1 == k) = true) := by
    simp only [List.any_eq_true, beq_iff_eq, not_exists]
    intro q hq
    exact h q hq.1 hq.2
  unfold insertPair
  rw [if_neg hc]

/-- Folding member insertion over pairwise-distinct fresh keys appends all
the entries in order. -/
theorem foldl_insertPair (pairs : Files) :
    ∀ acc : Files, (pairs.map Prod.fst).Nodup → (∀ p ∈ pairs, ∀ q ∈ acc, q.1 ≠ p.1) →
    pairs.foldl (fun m p => insertPair m p.1 p.2) acc = acc ++ pairs := by
  induction pairs with
  | nil => intro acc _ _; simp
  | cons p rest ih =>
    intro acc hnd hdisj
    simp only [List.foldl_cons]
    rw [insertPair_fresh acc p.1 p.2 (fun q hq => hdisj p (by simp) q hq)]
    rw [ih (acc ++ [(p.1, p.2)]) (by simp_all)]
    · simp
    · intro p2 hp2 q hq
      rcases List.mem_append.mp hq with hq1 | hq2
      · exact hdisj p2 (by simp [hp2]) q hq1
      · have hq3 : q = (p.1, p.2) := by simpa using hq2
        subst hq3
        simp only [List.map_cons, List.nodup_cons] at hnd
        intro hcontra
        exact hnd.1 (hcontra ▸ List.mem_map_of_mem Prod.fst hp2)

/-- Evaluation of `decode` on a payload that is a whitespace-led object
with at least one member: the member loop result is the decoded bundle. -/
theorem decode_object (X : List Char) (s : String) (hs : skipWs s.data = lbr :: X)
    (t : List Char) (hpeek : skipWs X = dq :: t) (m : Files) (r2 : List Char)
    (hloop : parseMembersLoop X [] = some (m, r2)) (hr : skipWs r2 = []) :
    decode s = some m := by
  unfold decode
  rw [hs]
  split
  next h => exact absurd h (by simp)
  next c r h =>
    injection h with h1 h2
    subst h1
    subst h2
    rw [if_pos rfl, hpeek]
    split
    next h => exact absurd h (by simp)
    next c2 rr h =>
      injection h with h1 h2
      subst h1
      subst h2
      rw [if_neg (by decide), hloop]
      split
      next h => exact Option.noConfusion h
      next mm rrest h =>
        injection h with h3
        rw [Prod.mk.injEq] at h3
        obtain ⟨h4, h5⟩ := h3
        subst h4
        subst h5
        rw [hr]
        rfl

/-- A member line starts, after whitespace, with a quote. -/
theorem skipWs_memberLine (p : String × String) (w : List Char) :
    ∃ t, skipWs (memberLine p ++ w) = dq :: t := by
  obtain ⟨k, v⟩ := p
  refine ⟨escapeString k.data ++ [dq] ++ ((':' :: spc :: quoteStr v) ++ w), ?_⟩
  show skipWs (spc :: spc :: ((quoteStr k ++ ':' :: spc :: quoteStr v) ++ w)) = _
  rw [skipWs_ws spc _ (by decide), skipWs_ws spc _ (by decide)]
  rw [show (quoteStr k ++ ':' :: spc :: quoteStr v) ++ w
      = dq :: ((escapeString k.data ++ [dq]) ++ ((':' :: spc :: quoteStr v) ++ w)) by
    simp [quoteStr]]
  rw [skipWs_not dq _ (by decide)]

/-- The members text of a non-empty bundle starts, after whitespace, with a
quote. -/
theorem skipWs_membersText (p : String × String) (rest : Files) (w : List Char) :
    ∃ t, skipWs (membersText (p :: rest) ++ w) = dq :: t := by
  cases rest with
  | nil => exact skipWs_memberLine p w
  | cons q rest2 =>
    rw [show membersText (p :: q :: rest2)
        = memberLine p ++ ',' :: nlc :: membersText (q :: rest2) from rfl]
    rw [List.append_assoc]
    exact skipWs_memberLine p _

/-- Decoding inverts encoding: serializing any bundle with pairwise
distinct keys and parsing the text back yields the same entry list. -/
theorem decode_encode (m : Files) (hnd : (m.map Prod.fst).Nodup) :
    decode (encode m) = some m := by
  cases m with
  | nil => rfl
  | cons p rest =>
    have hs : skipWs (encode (p :: rest)).data
        = lbr :: (nlc :: (membersText (p :: rest) ++ [nlc, rbr])) := by
      rw [show (encode (p :: rest)).data
          = lbr :: nlc :: (membersText (p :: rest) ++ [nlc, rbr]) from rfl]
      exact skipWs_not lbr _ (by decide)
    obtain ⟨t, ht⟩ := skipWs_membersText p rest [nlc, rbr]
    have hpeek : skipWs (nlc :: (membersText (p :: rest) ++ [nlc, rbr])) = dq :: t := by
      rw [skipWs_ws nlc _ (by decide)]
      exact ht
    have hloop := parseMembersLoop_members (p :: rest) (by simp) [] []
    rw [foldl_insertPair (p :: rest) [] hnd (by simp)] at hloop
    exact decode_object _ _ hs t hpeek (p :: rest) [] (by simpa using hloop) rfl

/-! ### The `get` operation (`main.rs:79-131`) -/

/-- Rust `str::ends_with` on a literal pattern: suffix match on the
character sequence. -/
def strEndsWith (s t : String) : Bool :=
  t.data.reverse.isPrefixOf s.data.reverse

/-- Rust `str::starts_with` on a literal pattern. -/
def strStartsWith (s t : String) : Bool :=
  t.data.isPrefixOf s.data

/-- Permission mode chosen at `main.rs:116-120`: world-readable `0444` for
filenames ending in `.pub` or `.public`, owner-read-only `0400` otherwise. -/
def fileMode (k : String) : Nat :=
  if strEndsWith k ".pub" || strEndsWith k ".public" then 0o444 else 0o400

/-- Rust `PathBuf::join` on Unix path strings (`main.rs:115`): an absolute
right operand replaces the base, otherwise the operand is appended after a
separator. -/
def pathJoin (dir k : String) : String :=
  if strStartsWith k "/" then k
  else if strEndsWith dir "/" then dir ++ k
  else dir ++ "/" ++ k

/-- A file on disk: absolute path, permission mode, content. -/
abbrev DiskFile := String × Nat × String

/-- The materialization loop of `get` (`main.rs:114-129`): for each decoded
`(filename, content)` pair, open the file at `outdir.join(filename)` with
`create_new(true)` (exclusive create: fails if the path already exists)
and the naming-policy mode, and write the content verbatim.  The state is
the list of files on disk; on the first failed creation the loop stops,
returning the files created so far and the offending path. -/
def materialize (outdir : String) : Files → List DiskFile → List DiskFile × Option String
  | [], fs => (fs, none)
  | (k, v) :: rest, fs =>
    let path := pathJoin outdir k
    if fs.any (fun e => e.1 == path) then (fs, some path)
    else materialize outdir rest (fs ++ [(path, fileMode k, v)])

/-- Observed state of the output directory when `get` starts. -/
structure OutdirState where
  exists_ : Bool
  isDir : Bool
  entryCount : Nat
deriving DecidableEq

/-- The remote store's response to `get_secret_value`. -/
inductive FetchResult
  | storeError
  | missingString
  | payload (s : String)
deriving DecidableEq

/-- Errors `get` can surface. -/
inductive GetError
  | notEmptyDir
  | storeError
  | missingSecretString
  | decodeError
  | fileExists (path : String)
deriving DecidableEq

/-- Everything observable about one run of `get`. -/
structure GetResult where
  error : Option GetError
  remoteCalled : Bool
  files : List DiskFile
deriving DecidableEq

/-- `get` (`main.rs:79-131`): validate the output directory (it must be
absent, or an existing directory with zero entries, otherwise fail before
any network call), then fetch the secret, decode its `secret_string` as a
`Files` map, and materialize one file per entry into the (empty) directory. -/
def get (outdir : String) (d : OutdirState) (fr : FetchResult) : GetResult :=
  if d.exists_ && !d.isDir then ⟨some .notEmptyDir, false, []⟩
  else if d.exists_ && d.entryCount != 0 then ⟨some .notEmptyDir, false, []⟩
  else
    match fr with
    | .storeError => ⟨some .storeError, true, []⟩
    | .missingString => ⟨some .missingSecretString, true, []⟩
    | .payload s =>
      match decode s with
      | none => ⟨some .decodeError, true, []⟩
      | some files =>
        let r := materialize outdir files []
        ⟨r.2.map .fileExists, true, r.1⟩

/-! ### The `put` operation (`main.rs:133-208`) -/

/-- One immediate entry of the source directory as `put` observes it
(`main.rs:142-166`): either a regular file — with its lossy display path,
its filename as text when the name is valid UTF-8, and its content as text
when the content is valid UTF-8 — or a non-regular entry (subdirectory,
symlink, device, ...). -/
inductive DirEntry
  | regular (display : String) (name : Option String) (content : Option String)
  | nonRegular
deriving DecidableEq

/-- The scan errors of `put`: a filename that is not valid UTF-8
(`main.rs:151-162`) or file content that is not valid UTF-8
(`main.rs:163-164`), each naming the offending path. -/
inductive ScanError
  | invalidFileName (path : String)
  | invalidContent (path : String)
deriving DecidableEq

/-- The directory scan loop of `put` (`main.rs:142-166`): skip entries that
are not regular files, fail fast on a non-UTF-8 filename or content, and
insert each surviving `(filename, content)` pair into the map. -/
def scanLoop : List DirEntry → Files → Except ScanError Files
  | [], acc => .ok acc
  | .nonRegular :: rest, acc => scanLoop rest acc
  | .regular d none _ :: rest, _ => .error (.invalidFileName d)
  | .regular d (some _) none :: rest, _ => .error (.invalidContent d)
  | .regular _ (some n) (some c) :: rest, acc => scanLoop rest (insertPair acc n c)

/-- Classification of one operator input line by the confirmation loop
(`main.rs:186-193`): the match is on the trimmed line against the eight
literal casings `yes`/`y`/`Yes`/`YES` and `no`/`n`/`No`/`NO`; anything else
re-prompts. -/
inductive Answer
  | affirmative
  | negative
  | retry
deriving DecidableEq

/-- Rust `char::is_whitespace`: the Unicode `White_Space` code points. -/
def rustIsWhitespace (c : Char) : Bool :=
  (9 ≤ c.toNat && c.toNat ≤ 13) || c.toNat == 32 || c.toNat == 133 || c.toNat == 160 ||
  c.toNat == 5760 || (8192 ≤ c.toNat && c.toNat ≤ 8202) || c.toNat == 8232 ||
  c.toNat == 8233 || c.toNat == 8239 || c.toNat == 8287 || c.toNat == 12288

/-- Rust `str::trim`: drop Unicode whitespace from both ends. -/
def rustTrim (s : String) : String :=
  ⟨((s.data.dropWhile rustIsWhitespace).reverse.dropWhile rustIsWhitespace).reverse⟩

/-- The `match answer.trim()` of `main.rs:186-193`. -/
def classify (s : String) : Answer :=
  let t := rustTrim s
  if t = "yes" ∨ t = "y" ∨ t = "Yes" ∨ t = "YES" then .affirmative
  else if t = "no" ∨ t = "n" ∨ t = "No" ∨ t = "NO" then .negative
  else .retry

/-- Outcome of the confirmation loop. -/
inductive Decision
  | proceed
  | cancel
deriving DecidableEq

/-- The confirmation loop of `main.rs:179-194` over the sequence of input
lines: an affirmative line breaks out to the upload, a negative line exits
the process with code 0, anything else clears the buffer and re-prompts.
`none` models the loop never being answered (input exhausted). -/
def confirmLoop : List String → Option Decision
  | [] => none
  | s :: rest =>
    match classify s with
    | .affirmative => some .proceed
    | .negative => some .cancel
    | .retry => confirmLoop rest

/-- Everything observable about one run of `put` up to the remote call. -/
inductive PutOutcome
  | validationError
  | encodingError (e : ScanError)
  | cancelled
  | noAnswer
  | sent (payload : String)
deriving DecidableEq

/-- `put` (`main.rs:133-208`): require the input path to be a directory,
scan it into a bundle, display the sorted key list, run the confirmation
loop, and only on an affirmative answer serialize the bundle and send the
`PutSecretValue` request. -/
def put (indirIsDir : Bool) (entries : List DirEntry) (answers : List String) : PutOutcome :=
  if !indirIsDir then .validationError
  else
    match scanLoop entries [] with
    | .error e => .encodingError e
    | .ok m =>
      match confirmLoop answers with
      | none => .noAnswer
      | some .cancel => .cancelled
      | some .proceed => .sent (encode m)

/-- Whether a run of `put` issued the remote `PutSecretValue` request. -/
def putRemoteCalled : PutOutcome → Bool
  | .sent _ => true
  | _ => false

/-- Process exit code for each `put` outcome: `exit(0)` on operator decline
(`main.rs:190`), 0 on success, 1 when `main` returns an error; `none` for
the model artifact of exhausted input. -/
def putExitCode : PutOutcome → Option Nat
  | .cancelled => some 0
  | .sent _ => some 0
  | .noAnswer => none
  | _ => some 1

/-! ### Supporting lemmas about `materialize` and `scanLoop` -/

/-- When the joined paths are pairwise distinct and fresh with respect to
the files already on disk, materialization creates exactly one file per
pair, in order, with the policy mode and the verbatim content. -/
theorem materialize_ok (outdir : String) (pairs : Files) :
    ∀ fs : List DiskFile,
    (pairs.map fun p => pathJoin outdir p.1).Nodup →
    (∀ p ∈ pairs, ∀ e ∈ fs, e.1 ≠ pathJoin outdir p.1) →
    materialize outdir pairs fs
      = (fs ++ pairs.map (fun p => (pathJoin outdir p.1, fileMode p.1, p.2)), none) := by
  induction pairs with
  | nil => intro fs _ _; simp [materialize]
  | cons p rest ih =>
    intro fs hnd hdisj
    obtain ⟨k, v⟩ := p
    have hfresh : ¬(fs.any (fun e => e.1 == pathJoin outdir k) = true) := by
      simp only [List.any_eq_true, beq_iff_eq, not_exists]
      intro e he
      exact hdisj (k, v) (by simp) e he.1 he.2
    simp only [materialize]
    rw [if_neg hfresh]
    rw [ih (fs ++ [(pathJoin outdir k, fileMode k, v)])
      (by simpa using (List.nodup_cons.mp (by simpa using hnd)).2) ?fresh]
    · simp
    case fresh =>
      intro q hq e he
      rcases List.mem_append.mp he with he1 | he2
      · exact hdisj q (by simp [hq]) e he1
      · have he3 : e = (pathJoin outdir k, fileMode k, v) := by simpa using he2
        subst he3
        have hk : pathJoin outdir k ∉ (rest.map fun p => pathJoin outdir p.1) :=
          (List.nodup_cons.mp (by simpa using hnd)).1
        simp only [ne_eq]
        intro hc
        exact hk (hc ▸ List.mem_map.mpr ⟨q, hq, rfl⟩)

/-- The pair scanned out of a directory entry, when the entry is a regular
file with UTF-8 name and content. -/
def entryPair : DirEntry → Option (String × String)
  | .regular _ (some n) (some c) => some (n, c)
  | _ => none

/-- Whether the scan accepts or skips the entry without failing. -/
def entryOk : DirEntry → Bool
  | .regular _ none _ => false
  | .regular _ (some _) none => false
  | _ => true

/-- The scan error produced by a bad entry. -/
def entryError : DirEntry → Option ScanError
  | .regular d none _ => some (.invalidFileName d)
  | .regular d (some _) none => some (.invalidContent d)
  | _ => none

/-- A scan over well-formed entries folds exactly the regular files' pairs
into the accumulator. -/
theorem scanLoop_ok (entries : List DirEntry) (hok : ∀ e ∈ entries, entryOk e = true) :
    ∀ acc,
    scanLoop entries acc
      = .ok ((entries.filterMap entryPair).foldl (fun m p => insertPair m p.1 p.2) acc) := by
  induction entries with
  | nil => intro acc; simp [scanLoop]
  | cons e rest ih =>
    intro acc
    have hok2 : ∀ x ∈ rest, entryOk x = true := fun x hx => hok x (by simp [hx])
    cases e with
    | nonRegular => simp [scanLoop, entryPair, ih hok2]
    | regular d n c =>
      cases n with
      | none => exact absurd (hok (DirEntry.regular d none c) (by simp)) (by simp [entryOk])
      | some nm =>
        cases c with
        | none =>
          exact absurd (hok (DirEntry.regular d (some nm) none) (by simp)) (by simp [entryOk])
        | some ct => simp [scanLoop, entryPair, ih hok2]

/-- A scan fails fast with the error of the first bad entry. -/
theorem scanLoop_fails (pre : List DirEntry) (e : DirEntry) (rest : List DirEntry)
    (err : ScanError) (hpre : ∀ x ∈ pre, entryOk x = true) (herr : entryError e = some err) :
    ∀ acc, scanLoop (pre ++ e :: rest) acc = .error err := by
  induction pre with
  | nil =>
    intro acc
    cases e with
    | nonRegular => exact absurd herr (by simp [entryError])
    | regular d n c =>
      cases n with
      | none =>
        have he : err = .invalidFileName d := by simpa [entryError] using herr.symm
        subst he
        simp [scanLoop]
      | some nm =>
        cases c with
        | none =>
          have he : err = .invalidContent d := by simpa [entryError] using herr.symm
          subst he
          simp [scanLoop]
        | some ct => exact absurd herr (by simp [entryError])
  | cons x pre2 ih =>
    intro acc
    have hpre2 : ∀ y ∈ pre2, entryOk y = true := fun y hy => hpre y (by simp [hy])
    have hx := hpre x (by simp)
    cases x with
    | nonRegular => simpa [scanLoop] using ih hpre2 acc
    | regular d n c =>
      cases n with
      | none => exact absurd hx (by simp [entryOk])
      | some nm =>
        cases c with
        | none => exact absurd hx (by simp [entryOk])
        | some ct => simpa [scanLoop] using ih hpre2 (insertPair acc nm ct)

/-! ### The claims -/

/-- C1: for every bundle whose keys are non-empty unique text strings and
whose values are text strings, decoding the result of encoding that bundle
(serialize to the structured text payload, then parse it back) yields a
bundle equal to the original. -/
theorem claim_c1_roundtrip (m : Files)
    (hkeys : ∀ p ∈ m, p.1 ≠ "") (hnd : (m.map Prod.fst).Nodup) :
    decode (encode m) = some m :=
  decode_encode m hnd

/-- Witness for C1 at the spec's example bundle. -/
theorem claim_c1_roundtrip_witness :
    (∀ p ∈ ([("id_rsa", "A"), ("id_rsa.pub", "B")] : Files), p.1 ≠ "") ∧
    ((([("id_rsa", "A"), ("id_rsa.pub", "B")] : Files).map Prod.fst).Nodup) ∧
    decode (encode [("id_rsa", "A"), ("id_rsa.pub", "B")])
      = some [("id_rsa", "A"), ("id_rsa.pub", "B")] :=
  ⟨by decide, by decide, claim_c1_roundtrip _ (by decide) (by decide)⟩

/-- C2: whenever the target directory exists and either is not a directory
or contains at least one entry, `get` fails with the validation error
before any call to the remote store, and creates no files. -/
theorem claim_c2_get_validation (outdir : String) (d : OutdirState) (fr : FetchResult)
    (hex : d.exists_ = true) (hbad : d.isDir = false ∨ d.entryCount ≠ 0) :
    get outdir d fr = ⟨some .notEmptyDir, false, []⟩ := by
  unfold get
  by_cases hd : d.isDir = true
  · have h : d.entryCount ≠ 0 := by
      rcases hbad with h | h
      · rw [hd] at h; exact absurd h (by simp)
      · exact h
    rw [if_neg (by simp [hex, hd]), if_pos (by simp [hex, hd, h])]
  · have hd2 : d.isDir = false := by simpa using hd
    rw [if_pos (by simp [hex, hd2])]

/-- Witness for C2: an existing directory with one entry. -/
theorem claim_c2_get_validation_witness :
    (OutdirState.mk true true 1).exists_ = true ∧
    ((OutdirState.mk true true 1).isDir = false ∨ (OutdirState.mk true true 1).entryCount ≠ 0) ∧
    get "out" ⟨true, true, 1⟩ .storeError = ⟨some .notEmptyDir, false, []⟩ :=
  ⟨rfl, Or.inr (by decide),
   claim_c2_get_validation "out" ⟨true, true, 1⟩ .storeError rfl (Or.inr (by decide))⟩

/-- C3: every pair materialized by `get` becomes a file whose mode is 0444
exactly when the filename ends in `.pub` or `.public` and 0400 otherwise,
and whose content is exactly the pair's content with no transformation. -/
theorem claim_c3_mode_policy (outdir : String) (pairs : Files)
    (hnd : (pairs.map fun p => pathJoin outdir p.1).Nodup) :
    materialize outdir pairs [] =
      (pairs.map fun p =>
        (pathJoin outdir p.1,
         if strEndsWith p.1 ".pub" || strEndsWith p.1 ".public" then 0o444 else 0o400,
         p.2),
       none) := by
  rw [materialize_ok outdir pairs [] hnd (by simp)]
  simp [fileMode]

/-- Witness for C3 at the spec's example bundle. -/
theorem claim_c3_mode_policy_witness :
    ((([("id_rsa", "A"), ("id_rsa.pub", "B")] : Files).map
        fun p => pathJoin "out" p.1).Nodup) ∧
    materialize "out" [("id_rsa", "A"), ("id_rsa.pub", "B")] []
      = ([("out/id_rsa", 0o400, "A"), ("out/id_rsa.pub", 0o444, "B")], none) :=
  ⟨by decide,
   (claim_c3_mode_policy "out" [("id_rsa", "A"), ("id_rsa.pub", "B")] (by decide)).trans
     (by decide)⟩

/-- C4: file creation is exclusive — a pair whose joined path already
exists on disk makes the loop stop with that path as the error, leaving the
existing file untouched and processing no later pair — and whatever the
outcome, every file present before the loop (in particular every file
created before a failure) remains on disk afterwards. -/
theorem claim_c4_exclusive_create (outdir : String) :
    (∀ (k v : String) (rest : Files) (fs : List DiskFile),
      (∃ e ∈ fs, e.1 = pathJoin outdir k) →
      materialize outdir ((k, v) :: rest) fs = (fs, some (pathJoin outdir k))) ∧
    (∀ (pairs : Files) (fs : List DiskFile),
      ∃ created, (materialize outdir pairs fs).1 = fs ++ created) := by
  constructor
  · intro k v rest fs hex
    obtain ⟨e, he, hp⟩ := hex
    simp only [materialize]
    rw [if_pos (List.any_eq_true.mpr ⟨e, he, by simp [hp]⟩)]
  · intro pairs
    induction pairs with
    | nil => intro fs; exact ⟨[], by simp [materialize]⟩
    | cons p rest ih =>
      intro fs
      simp only [materialize]
      split
      · exact ⟨[], by simp⟩
      · obtain ⟨created, hc⟩ := ih (fs ++ [(pathJoin outdir p.1, fileMode p.1, p.2)])
        exact ⟨(pathJoin outdir p.1, fileMode p.1, p.2) :: created, by simp [hc]⟩

/-- Witness for C4: a colliding filename aborts without overwriting, and
the files already on disk remain. -/
theorem claim_c4_exclusive_create_witness :
    (∃ e ∈ [(("out/id_rsa" : String), ((0o400 : Nat), ("A" : String)))],
      e.1 = pathJoin "out" "id_rsa") ∧
    materialize "out" [("id_rsa", "X")] [("out/id_rsa", 0o400, "A")]
      = ([("out/id_rsa", 0o400, "A")], some (pathJoin "out" "id_rsa")) ∧
    (∃ created, (materialize "out" [("id_rsa", "X")] [("out/id_rsa", 0o400, "A")]).1
      = [("out/id_rsa", 0o400, "A")] ++ created) :=
  ⟨by decide,
   (claim_c4_exclusive_create "out").1 "id_rsa" "X" [] [("out/id_rsa", 0o400, "A")]
     (by decide),
   (claim_c4_exclusive_create "out").2 [("id_rsa", "X")] [("out/id_rsa", 0o400, "A")]⟩

/-- ASCII lower-casing, character by character. -/
def toLowerL (s : String) : String :=
  ⟨s.data.map fun c => if 65 ≤ c.toNat ∧ c.toNat ≤ 90 then Char.ofNat (c.toNat + 32) else c⟩

/-- Case-insensitive string match, as the specification's "case-insensitively
matches" reads. -/
abbrev ciMatches (s t : String) : Prop := toLowerL s = toLowerL t

/-- C5 counterexample: the claim says the gate accepts a line as
affirmative exactly when it case-insensitively matches `yes` or `y`.  The
input line `Y` case-insensitively matches `y`, yet the literal match of
`main.rs:187` covers only the four casings `yes`, `y`, `Yes`, `YES`, so
`Y` is classified as a re-prompt, not as affirmative. -/
theorem claim_c5_counterexample :
    ciMatches "Y" "y" ∧ classify "Y" = Answer.retry ∧ classify "Y" ≠ Answer.affirmative := by
  refine ⟨by decide, by decide, by decide⟩

/-- C5 amended: the gate accepts a line as affirmative exactly when its
trimmed form is one of the literal casings `yes`, `y`, `Yes`, `YES`, as
negative exactly when it is one of `no`, `n`, `No`, `NO`, and re-prompts on
any other line without terminating the loop. -/
theorem claim_c5_amended (s : String) (rest : List String) :
    (classify s = Answer.affirmative ↔
      rustTrim s ∈ (["yes", "y", "Yes", "YES"] : List String)) ∧
    (classify s = Answer.negative ↔
      rustTrim s ∈ (["no", "n", "No", "NO"] : List String)) ∧
    (classify s = Answer.retry → confirmLoop (s :: rest) = confirmLoop rest) := by
  refine ⟨?_, ?_, ?_⟩
  · unfold classify
    dsimp only
    split_ifs with h1 h2 <;> simp_all
  · unfold classify
    dsimp only
    split_ifs with h1 h2 <;> simp_all
    rcases h1 with h | h | h | h <;> rw [h] <;> decide
  · intro h
    simp [confirmLoop, h]

/-- Witness for C5: `YES` is accepted, `maybe` re-prompts. -/
theorem claim_c5_amended_witness :
    (classify "YES" = Answer.affirmative ↔
      rustTrim "YES" ∈ (["yes", "y", "Yes", "YES"] : List String)) ∧
    confirmLoop ["maybe", "YES"] = confirmLoop ["YES"] :=
  ⟨(claim_c5_amended "YES" []).1, (claim_c5_amended "maybe" ["YES"]).2.2 (by decide)⟩

/-- C6: when the operator answers negatively at the confirmation gate,
`put` terminates with exit code 0 and never sends the request to the
remote secret store. -/
theorem claim_c6_decline (entries : List DirEntry) (answers : List String) (m : Files)
    (hscan : scanLoop entries [] = .ok m)
    (hdecl : confirmLoop answers = some .cancel) :
    put true entries answers = .cancelled ∧
    putRemoteCalled (put true entries answers) = false ∧
    putExitCode (put true entries answers) = some 0 := by
  have hp : put true entries answers = .cancelled := by
    unfold put
    rw [if_neg (by simp), hscan, hdecl]
  exact ⟨hp, by rw [hp]; rfl, by rw [hp]; rfl⟩

/-- Witness for C6. -/
theorem claim_c6_decline_witness :
    scanLoop [] [] = .ok [] ∧ confirmLoop ["no"] = some .cancel ∧
    put true [] ["no"] = .cancelled ∧
    putRemoteCalled (put true [] ["no"]) = false ∧
    putExitCode (put true [] ["no"]) = some 0 := by
  have h := claim_c6_decline [] ["no"] [] rfl (by decide)
  exact ⟨rfl, by decide, h.1, h.2.1, h.2.2⟩

/-- C7 counterexample: the claim says any two encodings of the same bundle
(in particular two runs of `put` over the same directory) produce the
identical payload text.  The bundle is held in a `HashMap` whose iteration
order depends on the per-process random hash seed, and the serializer at
`main.rs:195` writes the entries in iteration order, so the same bundle can
present its entries in either order; the two entry sequences below are the
same bundle (a permutation of each other) yet encode to different texts. -/
theorem claim_c7_counterexample :
    ([("a", "x"), ("b", "y")] : Files).Perm [("b", "y"), ("a", "x")] ∧
    encode [("a", "x"), ("b", "y")] ≠ encode [("b", "y"), ("a", "x")] := by
  refine ⟨by decide, by decide⟩

/-- C7 amended: encoding is deterministic as a function of the map's entry
sequence, and although two runs may order the same bundle differently and
hence produce different texts, the two texts always decode back to the
same bundle. -/
theorem claim_c7_amended (b1 b2 : Files) (hperm : b1.Perm b2)
    (hnd : (b1.map Prod.fst).Nodup) :
    decode (encode b1) = some b1 ∧ decode (encode b2) = some b2 ∧ b1.Perm b2 :=
  ⟨decode_encode b1 hnd, decode_encode b2 ((hperm.map Prod.fst).nodup_iff.mp hnd), hperm⟩

/-- Witness for C7 amended. -/
theorem claim_c7_amended_witness :
    decode (encode ([("a", "x"), ("b", "y")] : Files)) = some [("a", "x"), ("b", "y")] ∧
    decode (encode ([("b", "y"), ("a", "x")] : Files)) = some [("b", "y"), ("a", "x")] := by
  have h := claim_c7_amended [("a", "x"), ("b", "y")] [("b", "y"), ("a", "x")]
    (by decide) (by decide)
  exact ⟨h.1, h.2.1⟩

/-- C8: the bundle scanned out of a source directory contains exactly the
pairs of its immediate regular-file entries; non-regular entries
(subdirectories, symlinks, devices) are skipped and contribute nothing. -/
theorem claim_c8_scan (entries : List DirEntry)
    (hok : ∀ e ∈ entries, entryOk e = true)
    (hnd : ((entries.filterMap entryPair).map Prod.fst).Nodup) :
    scanLoop entries [] = .ok (entries.filterMap entryPair) := by
  rw [scanLoop_ok entries hok []]
  rw [foldl_insertPair (entries.filterMap entryPair) [] hnd (by simp)]
  simp

/-- Witness for C8: one non-regular entry (a subdirectory) and one regular
file; only the regular file ends up in the bundle. -/
theorem claim_c8_scan_witness :
    (∀ e ∈ [DirEntry.nonRegular, DirEntry.regular "f" (some "f") (some "data")],
      entryOk e = true) ∧
    scanLoop [DirEntry.nonRegular, DirEntry.regular "f" (some "f") (some "data")] []
      = .ok [("f", "data")] :=
  ⟨by decide, (claim_c8_scan _ (by decide) (by decide)).trans rfl⟩

/-- C9: a regular source file whose name or content is not valid UTF-8
makes `put` fail with the corresponding encoding error naming the offending
path, before any network call is attempted, and no bundle is produced. -/
theorem claim_c9_encoding_error (pre : List DirEntry) (e : DirEntry) (rest : List DirEntry)
    (answers : List String) (err : ScanError)
    (hpre : ∀ x ∈ pre, entryOk x = true) (herr : entryError e = some err) :
    put true (pre ++ e :: rest) answers = .encodingError err ∧
    putRemoteCalled (put true (pre ++ e :: rest) answers) = false := by
  have hp : put true (pre ++ e :: rest) answers = .encodingError err := by
    unfold put
    rw [if_neg (by simp), scanLoop_fails pre e rest err hpre herr []]
  exact ⟨hp, by rw [hp]; rfl⟩

/-- Witness for C9: a file with a non-UTF-8 name, even with an affirmative
answer queued up. -/
theorem claim_c9_encoding_error_witness :
    entryError (DirEntry.regular "bad" none none) = some (.invalidFileName "bad") ∧
    put true [DirEntry.regular "bad" none none] ["yes"]
      = .encodingError (.invalidFileName "bad") ∧
    putRemoteCalled (put true [DirEntry.regular "bad" none none] ["yes"]) = false := by
  have h := claim_c9_encoding_error [] (DirEntry.regular "bad" none none) [] ["yes"]
    (.invalidFileName "bad") (by decide) (by decide)
  exact ⟨by decide, h.1, h.2⟩

/-- C10: decoding enforces none of the data model's filename constraints —
a payload whose key is empty or contains path separators decodes
successfully, and `get` then attempts file creation at the target directory
joined with the raw key, unvalidated. -/
theorem claim_c10_no_validation (k v outdir : String) :
    decode (encode [(k, v)]) = some [(k, v)] ∧
    get outdir ⟨true, true, 0⟩ (.payload (encode [(k, v)]))
      = ⟨none, true, [(pathJoin outdir k, fileMode k, v)]⟩ ∧
    pathJoin "out" "a/b" = "out/a/b" ∧
    pathJoin "out" "../x" = "out/../x" ∧
    pathJoin "out" "" = "out/" := by
  have hd : decode (encode [(k, v)]) = some [(k, v)] := decode_encode _ (by simp)
  refine ⟨hd, ?_, by decide, by decide, by decide⟩
  unfold get
  rw [if_neg (by simp), if_neg (by simp)]
  simp [hd, materialize]
